import Mathlib

/-
Shallow embedding of `src/maud_macros/src/render.rs` (the maud lowering
stage).  The Rust `Renderer` accumulates generated statements; here each
generated statement shape is a constructor of `Stmt`, and the generated
program is given an executable semantics against an explicit `Sink`.
Opaque host fragments (conditions, patterns, iterable elements, spliced
expressions) are modelled by the values they produce at run time, since
the lowering threads them through without inspection.
-/

namespace Maud

/-- The error raised by a failing sink.  `std::fmt::Error` carries no data
in Rust; we let the sink designate a value so that verbatim propagation of
the sink's own error is observable. -/
structure FmtError where
  code : Nat
deriving DecidableEq, Repr

/-- The two escaping modes, from `enum Escape` in render.rs. -/
inductive Escape where
  | PassThru
  | Escape
deriving DecidableEq, Repr

/-- Modelled from the spec: `maud::escape` is not under src/; the spec
gives its contract as a pure function replacing the structural characters
`<`, `>`, `&`, `"` by their safe equivalents. -/
def escapeChar (c : Char) : String :=
  if c = '&' then "&amp;"
  else if c = '<' then "&lt;"
  else if c = '>' then "&gt;"
  else if c = '"' then "&quot;"
  else String.singleton c

/-- Modelled from the spec: character-wise HTML escaping. -/
def escape (s : String) : String :=
  String.join (s.toList.map escapeChar)

/-- An opaque spliced expression, modelled by its runtime rendering
behaviour: the chunks it streams to the writer, in order, and whether it
then reports a formatting failure of its own. -/
structure OExpr where
  chunks : List String
  fail : Option FmtError
deriving DecidableEq, Repr

/-- An opaque condition fragment, modelled by the boolean it evaluates to. -/
structure Cond where
  val : Bool
deriving DecidableEq, Repr

/-- An opaque pattern fragment. -/
structure Pat where
  name : String
deriving DecidableEq, Repr

/-- An opaque element produced by an iterable. -/
structure Val where
  idx : Nat
deriving DecidableEq, Repr

/-- The write expressions that `push_try` wraps: `$w.write_str($s)` from
`Renderer::write`, and the two `::maud::rt::write_fmt` forms from
`Renderer::splice` (direct, or through `Escaper { inner: $w }`). -/
inductive WriteCall where
  | write_str (w : String) (s : String)
  | write_fmt_direct (w : String) (e : OExpr)
  | write_fmt_escaped (w : String) (e : OExpr)
deriving DecidableEq, Repr

/-- The statement shapes the Renderer generates: a `try!`-wrapped write
call, an `if` with optional `else` (from `emit_if`), and a `for` loop
(from `emit_for`). -/
inductive Stmt where
  | tryCall (c : WriteCall)
  | ifStmt (cond : Cond) (thenB : List Stmt) (elseB : Option (List Stmt))
  | forStmt (pat : Pat) (iter : List Val) (body : List Stmt)

/-- The output sink: chunks written so far, the number of write attempts
made, an optional 1-based attempt index at which the sink fails, and the
error value it raises when it does. -/
structure Sink where
  out : List String
  attempts : Nat
  failAt : Option Nat
  err : FmtError
deriving DecidableEq, Repr

/-- One write attempt on the sink.  Returns the updated sink and the
sink's error when this attempt is the designated failing one. -/
def Sink.writeStr (s : Sink) (t : String) : Sink × Option FmtError :=
  if s.failAt = some (s.attempts + 1) then
    ({ s with attempts := s.attempts + 1 }, some s.err)
  else
    ({ s with out := s.out ++ [t], attempts := s.attempts + 1 }, none)

/-- The concatenated text the sink has received. -/
def Sink.output (s : Sink) : String :=
  String.join s.out

/-- The `::maud::rt::Escaper { inner: w }` adapter: each chunk written to
it is escaped and forwarded to the inner sink. -/
def escaperWrite (s : Sink) (t : String) : Sink × Option FmtError :=
  s.writeStr (escape t)

/-- Stream a list of chunks through a writer, short-circuiting on the
first failure. -/
def renderChunks (write : Sink → String → Sink × Option FmtError) :
    List String → Sink → Sink × Option FmtError
  | [], s => (s, none)
  | c :: rest, s =>
    match write s c with
    | (s1, some e) => (s1, some e)
    | (s1, none) => renderChunks write rest s1

/-- `::maud::rt::write_fmt(target, expr)`: the expression streams its
chunks through the given writer; if that succeeds the expression may still
report its own formatting failure. -/
def OExpr.renderTo (e : OExpr) (write : Sink → String → Sink × Option FmtError)
    (s : Sink) : Sink × Option FmtError :=
  match renderChunks write e.chunks s with
  | (s1, some er) => (s1, some er)
  | (s1, none) => (s1, e.fail)

mutual

/-- Execute one generated statement against the sink. -/
def execStmt : Stmt → Sink → Sink × Option FmtError
  | .tryCall (.write_str _ t), s => s.writeStr t
  | .tryCall (.write_fmt_direct _ e), s => e.renderTo Sink.writeStr s
  | .tryCall (.write_fmt_escaped _ e), s => e.renderTo escaperWrite s
  | .ifStmt c thenB elseB, s =>
    if c.val then execStmts thenB s
    else
      match elseB with
      | none => (s, none)
      | some elseStmts => execStmts elseStmts s
  | .forStmt _ iter body, s => execIter body iter s

/-- Execute a statement list in order; `try!` short-circuits on the first
failure. -/
def execStmts : List Stmt → Sink → Sink × Option FmtError
  | [], s => (s, none)
  | st :: rest, s =>
    match execStmt st s with
    | (s1, some e) => (s1, some e)
    | (s1, none) => execStmts rest s1

/-- Execute a loop body once per element of the iterable, in iteration
order, against the same sink. -/
def execIter (body : List Stmt) : List Val → Sink → Sink × Option FmtError
  | [], s => (s, none)
  | _ :: rest, s =>
    match execStmts body s with
    | (s1, some e) => (s1, some e)
    | (s1, none) => execIter body rest s1

end

/-- The `Renderer` struct: the accumulated statements and the identifier
naming the output sink (the `ExtCtxt` is host-compiler machinery and has
no bearing on the generated program). -/
structure Renderer where
  stmts : List Stmt
  w : String

/-- `Renderer::new`: empty statement list, sink identifier `w`. -/
def Renderer.new : Renderer :=
  { stmts := [], w := "w" }

/-- `Renderer::fork`: a new renderer under the same context, with an empty
statement list and the same sink identifier. -/
def Renderer.fork (r : Renderer) : Renderer :=
  { stmts := [], w := r.w }

/-- `Renderer::into_expr`: reify into a runnable program: a closure over
the sink that executes the statements in order and ends in `Ok(())`. -/
def Renderer.into_expr (r : Renderer) : Sink → Sink × Option FmtError :=
  fun s => execStmts r.stmts s

/-- `Renderer::into_stmts`: reify into the raw statement list. -/
def Renderer.into_stmts (r : Renderer) : List Stmt :=
  r.stmts

/-- `Renderer::push_stmts`: `self.stmts.append(&mut stmts)` moves the
elements of the argument vector onto the end of `self.stmts`, leaving the
argument vector empty; we return the post-state of both. -/
def Renderer.push_stmts (r : Renderer) (stmts : List Stmt) :
    Renderer × List Stmt :=
  ({ r with stmts := r.stmts ++ stmts }, [])

/-- `Renderer::push_try`: wrap the expression in `try!` and push the
resulting statement. -/
def Renderer.push_try (r : Renderer) (c : WriteCall) : Renderer :=
  { r with stmts := r.stmts ++ [.tryCall c] }

/-- `Renderer::write`: append a literal pre-escaped string, as the
statement `try!($w.write_str($s))`. -/
def Renderer.write (r : Renderer) (s : String) : Renderer :=
  r.push_try (.write_str r.w s)

/-- `Renderer::string`: append a literal string with the given escaping
method; `escape` is applied at lowering time iff the mode is `Escape`. -/
def Renderer.string (r : Renderer) (s : String) (esc : Escape) : Renderer :=
  match esc with
  | .PassThru => r.write s
  | .Escape => r.write (escape s)

/-- `Renderer::splice`: append the result of an expression with the given
escaping method; in `Escape` mode the generated call writes through the
`Escaper` adapter wrapping `w`, in `PassThru` mode directly to `w`. -/
def Renderer.splice (r : Renderer) (e : OExpr) (esc : Escape) : Renderer :=
  match esc with
  | .PassThru => r.push_try (.write_fmt_direct r.w e)
  | .Escape => r.push_try (.write_fmt_escaped r.w e)

/-- `Renderer::element_open_start`. -/
def Renderer.element_open_start (r : Renderer) (name : String) : Renderer :=
  (r.write "<").write name

/-- `Renderer::attribute_start`. -/
def Renderer.attribute_start (r : Renderer) (name : String) : Renderer :=
  ((r.write " ").write name).write "=\""

/-- `Renderer::attribute_empty`. -/
def Renderer.attribute_empty (r : Renderer) (name : String) : Renderer :=
  (r.write " ").write name

/-- `Renderer::attribute_end`. -/
def Renderer.attribute_end (r : Renderer) : Renderer :=
  r.write "\""

/-- `Renderer::element_open_end`. -/
def Renderer.element_open_end (r : Renderer) : Renderer :=
  r.write ">"

/-- `Renderer::element_close`. -/
def Renderer.element_close (r : Renderer) (name : String) : Renderer :=
  ((r.write "</").write name).write ">"

/-- `Renderer::emit_if`: push a single `if` statement with the given
condition, then-body, and optional else-body. -/
def Renderer.emit_if (r : Renderer) (if_cond : Cond) (if_body : List Stmt)
    (else_body : Option (List Stmt)) : Renderer :=
  { r with stmts := r.stmts ++ [.ifStmt if_cond if_body else_body] }

/-- `Renderer::emit_for`: push a single `for` statement wrapping the
fully-lowered body. -/
def Renderer.emit_for (r : Renderer) (pattern : Pat) (iterable : List Val)
    (body : List Stmt) : Renderer :=
  { r with stmts := r.stmts ++ [.forStmt pattern iterable body] }

/-- One append operation on a Renderer, covering every public mutating
method of the source.  Bodies passed to `emitIf`/`emitFor`/`pushStmts`
are already-lowered statement lists, as in the source signatures. -/
inductive Op where
  | write (s : String)
  | string (s : String) (esc : Escape)
  | splice (e : OExpr) (esc : Escape)
  | elementOpenStart (name : String)
  | attributeStart (name : String)
  | attributeEmpty (name : String)
  | attributeEnd
  | elementOpenEnd
  | elementClose (name : String)
  | emitIf (c : Cond) (thenB : List Stmt) (elseB : Option (List Stmt))
  | emitFor (p : Pat) (iter : List Val) (body : List Stmt)
  | pushStmts (l : List Stmt)

/-- Apply one operation to a Renderer, each clause delegating to the
corresponding source method. -/
def applyOp (r : Renderer) : Op → Renderer
  | .write s => r.write s
  | .string s esc => r.string s esc
  | .splice e esc => r.splice e esc
  | .elementOpenStart n => r.element_open_start n
  | .attributeStart n => r.attribute_start n
  | .attributeEmpty n => r.attribute_empty n
  | .attributeEnd => r.attribute_end
  | .elementOpenEnd => r.element_open_end
  | .elementClose n => r.element_close n
  | .emitIf c t e => r.emit_if c t e
  | .emitFor p i b => r.emit_for p i b
  | .pushStmts l => (r.push_stmts l).1

/-- Apply a sequence of operations in invocation order. -/
def applyOps (r : Renderer) : List Op → Renderer
  | [] => r
  | op :: rest => applyOps (applyOp r op) rest

/-- The statements one operation appends, given the sink identifier. -/
def opStmts (w : String) : Op → List Stmt
  | .write s => [.tryCall (.write_str w s)]
  | .string s esc =>
    match esc with
    | .PassThru => [.tryCall (.write_str w s)]
    | .Escape => [.tryCall (.write_str w (escape s))]
  | .splice e esc =>
    match esc with
    | .PassThru => [.tryCall (.write_fmt_direct w e)]
    | .Escape => [.tryCall (.write_fmt_escaped w e)]
  | .elementOpenStart n => [.tryCall (.write_str w "<"), .tryCall (.write_str w n)]
  | .attributeStart n => [.tryCall (.write_str w " "), .tryCall (.write_str w n),
      .tryCall (.write_str w "=\"")]
  | .attributeEmpty n => [.tryCall (.write_str w " "), .tryCall (.write_str w n)]
  | .attributeEnd => [.tryCall (.write_str w "\"")]
  | .elementOpenEnd => [.tryCall (.write_str w ">")]
  | .elementClose n => [.tryCall (.write_str w "</"), .tryCall (.write_str w n),
      .tryCall (.write_str w ">")]
  | .emitIf c t e => [.ifStmt c t e]
  | .emitFor p i b => [.forStmt p i b]
  | .pushStmts l => l

/-- The statements a sequence of operations appends, in invocation order. -/
def opsStmts (w : String) : List Op → List Stmt
  | [] => []
  | op :: rest => opStmts w op ++ opsStmts w rest

/-- The sink identifier a write call refers to. -/
def WriteCall.sink : WriteCall → String
  | .write_str w _ => w
  | .write_fmt_direct w _ => w
  | .write_fmt_escaped w _ => w

mutual

/-- Every write call in the statement refers to the sink named `n`. -/
def stmtSinkOk (n : String) : Stmt → Bool
  | .tryCall c => c.sink == n
  | .ifStmt _ thenB elseB =>
    stmtsSinkOk n thenB &&
      (match elseB with
       | none => true
       | some l => stmtsSinkOk n l)
  | .forStmt _ _ body => stmtsSinkOk n body

/-- Every write call in the statement list refers to the sink named `n`. -/
def stmtsSinkOk (n : String) : List Stmt → Bool
  | [] => true
  | st :: rest => stmtSinkOk n st && stmtsSinkOk n rest

end

/-- Every statement list embedded in the operation (branch bodies, loop
bodies, pushed statements) refers only to the sink named `n`. -/
def opSinkOk (n : String) : Op → Bool
  | .emitIf _ t e =>
    stmtsSinkOk n t &&
      (match e with
       | none => true
       | some l => stmtsSinkOk n l)
  | .emitFor _ _ b => stmtsSinkOk n b
  | .pushStmts l => stmtsSinkOk n l
  | _ => true

/-- `opSinkOk` over a whole operation sequence. -/
def opsSinkOk (n : String) : List Op → Bool
  | [] => true
  | op :: rest => opSinkOk n op && opsSinkOk n rest

/-- The loop body repeated in sequence, once per iteration. -/
def repeatProgram : Nat → List Stmt → List Stmt
  | 0, _ => []
  | n + 1, b => b ++ repeatProgram n b

/-- A program consisting only of literal writes of the given chunks. -/
def writes (w : String) (chunks : List String) : List Stmt :=
  chunks.map (fun c => Stmt.tryCall (.write_str w c))

/-- Short-circuiting sequencing of execution results: continue with `k`
only when the first part succeeded. -/
def seqResult (a : Sink × Option FmtError) (k : Sink → Sink × Option FmtError) :
    Sink × Option FmtError :=
  match a with
  | (s, some e) => (s, some e)
  | (s, none) => k s

theorem applyOp_w (r : Renderer) (op : Op) : (applyOp r op).w = r.w := by
  cases op with
  | string s esc => cases esc <;> rfl
  | splice e esc => cases esc <;> rfl
  | _ => rfl

theorem applyOp_stmts (r : Renderer) (op : Op) :
    (applyOp r op).stmts = r.stmts ++ opStmts r.w op := by
  cases op with
  | string s esc => cases esc <;> simp [applyOp, opStmts, Renderer.string,
      Renderer.write, Renderer.push_try]
  | splice e esc => cases esc <;> simp [applyOp, opStmts, Renderer.splice,
      Renderer.push_try]
  | _ => simp [applyOp, opStmts, Renderer.write, Renderer.push_try,
      Renderer.element_open_start, Renderer.attribute_start,
      Renderer.attribute_empty, Renderer.attribute_end,
      Renderer.element_open_end, Renderer.element_close,
      Renderer.emit_if, Renderer.emit_for, Renderer.push_stmts]

theorem applyOps_w (r : Renderer) (ops : List Op) : (applyOps r ops).w = r.w := by
  induction ops generalizing r with
  | nil => rfl
  | cons op rest ih => rw [applyOps, ih, applyOp_w]

theorem applyOps_stmts (r : Renderer) (ops : List Op) :
    (applyOps r ops).stmts = r.stmts ++ opsStmts r.w ops := by
  induction ops generalizing r with
  | nil => simp [applyOps, opsStmts]
  | cons op rest ih =>
    rw [applyOps, ih, applyOp_stmts, applyOp_w, opsStmts, List.append_assoc]

theorem execStmts_append (p1 p2 : List Stmt) (s : Sink) :
    execStmts (p1 ++ p2) s = seqResult (execStmts p1 s) (execStmts p2) := by
  induction p1 generalizing s with
  | nil => simp [execStmts, seqResult]
  | cons st rest ih =>
    simp only [List.cons_append, execStmts]
    cases h : execStmt st s with
    | mk s1 e =>
      cases e with
      | none => simp [seqResult, ih]
      | some er => simp [seqResult]

theorem execIter_eq_repeat (body : List Stmt) (iter : List Val) (s : Sink) :
    execIter body iter s = execStmts (repeatProgram iter.length body) s := by
  induction iter generalizing s with
  | nil => simp [execIter, repeatProgram, execStmts]
  | cons v rest ih =>
    simp only [execIter, List.length_cons, repeatProgram, execStmts_append]
    cases h : execStmts body s with
    | mk s1 e =>
      cases e with
      | none => simp [seqResult, ih]
      | some er => simp [seqResult]

theorem renderChunks_plain (W : Sink → String → Sink × Option FmtError)
    (f : String → String) (hW : ∀ s t, W s t = Sink.writeStr s (f t))
    (cs : List String) (out0 : List String) (a0 : Nat) (er : FmtError) :
    renderChunks W cs ⟨out0, a0, none, er⟩ =
      (⟨out0 ++ cs.map f, a0 + cs.length, none, er⟩, none) := by
  induction cs generalizing out0 a0 with
  | nil => simp [renderChunks]
  | cons c rest ih =>
    simp only [renderChunks, hW, Sink.writeStr]
    simp only [reduceCtorEq, if_false]
    rw [ih (out0 ++ [f c]) (a0 + 1)]
    simp [List.append_assoc]
    omega

theorem execWrites_plain (w : String) (cs : List String) (out0 : List String)
    (a0 : Nat) (er : FmtError) :
    execStmts (writes w cs) ⟨out0, a0, none, er⟩ =
      (⟨out0 ++ cs, a0 + cs.length, none, er⟩, none) := by
  induction cs generalizing out0 a0 with
  | nil => simp [writes, execStmts]
  | cons c rest ih =>
    simp only [writes, List.map_cons, execStmts, execStmt, Sink.writeStr,
      reduceCtorEq, if_false]
    rw [show (rest.map (fun c => Stmt.tryCall (.write_str w c))) = writes w rest from rfl,
      ih (out0 ++ [c]) (a0 + 1)]
    simp [List.append_assoc]
    omega

theorem execWrites_fail (w : String) (cs : List String) (out0 : List String)
    (a0 N : Nat) (er : FmtError) (h1 : a0 < N) (h2 : N ≤ a0 + cs.length) :
    execStmts (writes w cs) ⟨out0, a0, some N, er⟩ =
      (⟨out0 ++ cs.take (N - 1 - a0), N, some N, er⟩, some er) := by
  induction cs generalizing out0 a0 with
  | nil =>
    exfalso
    simp at h2
    omega
  | cons c rest ih =>
    simp only [writes, List.map_cons, execStmts, execStmt, Sink.writeStr]
    by_cases hN : N = a0 + 1
    · subst hN
      simp [List.take]
    · have hlt : a0 + 1 < N := by omega
      have hne : ¬ (some N = some (a0 + 1)) := by
        simp
        omega
      rw [if_neg hne]
      simp only []
      rw [show (rest.map (fun c => Stmt.tryCall (.write_str w c))) = writes w rest from rfl,
        ih (out0 ++ [c]) (a0 + 1) hlt (by simp at h2 ⊢; omega)]
      have htake : (c :: rest).take (N - 1 - a0) = c :: rest.take (N - 1 - (a0 + 1)) := by
        have hstep : N - 1 - a0 = (N - 1 - (a0 + 1)) + 1 := by omega
        rw [hstep, List.take_succ_cons]
      rw [htake]
      simp [List.append_assoc]

theorem stmtsSinkOk_append (n : String) (l1 l2 : List Stmt) :
    stmtsSinkOk n (l1 ++ l2) = (stmtsSinkOk n l1 && stmtsSinkOk n l2) := by
  induction l1 with
  | nil => simp [stmtsSinkOk]
  | cons st rest ih => simp [stmtsSinkOk, ih, Bool.and_assoc]

theorem opStmts_sinkOk (n : String) (op : Op) (h : opSinkOk n op = true) :
    stmtsSinkOk n (opStmts n op) = true := by
  cases op with
  | string s esc => cases esc <;>
      simp [opStmts, stmtsSinkOk, stmtSinkOk, WriteCall.sink]
  | splice e esc => cases esc <;>
      simp [opStmts, stmtsSinkOk, stmtSinkOk, WriteCall.sink]
  | emitIf c t e =>
    cases e with
    | none =>
      simp only [opSinkOk, Bool.and_eq_true] at h
      simp [opStmts, stmtsSinkOk, stmtSinkOk, h.1]
    | some l =>
      simp only [opSinkOk, Bool.and_eq_true] at h
      simp [opStmts, stmtsSinkOk, stmtSinkOk, h.1, h.2]
  | emitFor p i b =>
    simp only [opSinkOk] at h
    simp [opStmts, stmtsSinkOk, stmtSinkOk, h]
  | pushStmts l =>
    simp only [opSinkOk] at h
    simp [opStmts, h]
  | _ => simp [opStmts, stmtsSinkOk, stmtSinkOk, WriteCall.sink]

theorem applyOps_sinkOk (r : Renderer) (ops : List Op) (n : String)
    (hw : r.w = n) (hs : stmtsSinkOk n r.stmts = true)
    (ho : opsSinkOk n ops = true) :
    stmtsSinkOk n (applyOps r ops).stmts = true := by
  induction ops generalizing r with
  | nil => exact hs
  | cons op rest ih =>
    simp only [opsSinkOk, Bool.and_eq_true] at ho
    rw [applyOps]
    refine ih (applyOp r op) ?_ ?_ ho.2
    · rw [applyOp_w, hw]
    · rw [applyOp_stmts, stmtsSinkOk_append, hw, hs,
        opStmts_sinkOk n op ho.1, Bool.and_self]

theorem join_singleton (s : String) : String.join [s] = s := by
  simp [String.join]

/-- C1: `string(t, Escape)` appends a single literal write of `escape t`
(escaping applied exactly once, at lowering time), and `string(t, PassThru)`
a single literal write of `t` unchanged; executing the resulting program
against a plain never-failing sink outputs exactly `escape t`,
respectively exactly `t`. -/
theorem string_lowering_and_output (r : Renderer) (t : String) (er : FmtError) :
    (r.string t .Escape).stmts = r.stmts ++ [.tryCall (.write_str r.w (escape t))]
    ∧ (r.string t .PassThru).stmts = r.stmts ++ [.tryCall (.write_str r.w t)]
    ∧ (Renderer.new.string t .Escape).into_expr ⟨[], 0, none, er⟩ =
        (⟨[escape t], 1, none, er⟩, none)
    ∧ ((Renderer.new.string t .Escape).into_expr ⟨[], 0, none, er⟩).1.output = escape t
    ∧ (Renderer.new.string t .PassThru).into_expr ⟨[], 0, none, er⟩ =
        (⟨[t], 1, none, er⟩, none)
    ∧ ((Renderer.new.string t .PassThru).into_expr ⟨[], 0, none, er⟩).1.output = t := by
  have hesc : (Renderer.new.string t .Escape).into_expr ⟨[], 0, none, er⟩ =
      (⟨[escape t], 1, none, er⟩, none) := by
    have h := execWrites_plain "w" [escape t] [] 0 er
    simpa [Renderer.into_expr, Renderer.new, Renderer.string, Renderer.write,
      Renderer.push_try, writes] using h
  have hpass : (Renderer.new.string t .PassThru).into_expr ⟨[], 0, none, er⟩ =
      (⟨[t], 1, none, er⟩, none) := by
    have h := execWrites_plain "w" [t] [] 0 er
    simpa [Renderer.into_expr, Renderer.new, Renderer.string, Renderer.write,
      Renderer.push_try, writes] using h
  refine ⟨rfl, rfl, hesc, ?_, hpass, ?_⟩
  · rw [hesc]
    exact join_singleton (escape t)
  · rw [hpass]
    exact join_singleton t

/-- C2: for every sequence of append operations, the reified statement
list gains exactly the operations' statements in invocation (document)
order; execution of a concatenated program runs the first part and only
on success continues with the second from the resulting sink state, and a
literal-write program delivers its chunks to a never-failing sink in
exactly instruction order. -/
theorem order_preservation (r : Renderer) (ops : List Op) (p1 p2 : List Stmt)
    (s : Sink) (w : String) (cs out0 : List String) (a0 : Nat) (er : FmtError) :
    (applyOps r ops).stmts = r.stmts ++ opsStmts r.w ops
    ∧ execStmts (p1 ++ p2) s = seqResult (execStmts p1 s) (execStmts p2)
    ∧ execStmts (writes w cs) ⟨out0, a0, none, er⟩ =
        (⟨out0 ++ cs, a0 + cs.length, none, er⟩, none) :=
  ⟨applyOps_stmts r ops, execStmts_append p1 p2 s, execWrites_plain w cs out0 a0 er⟩

/-- C6: `fork` produces a builder whose statement list is empty, sharing
only the sink identifier with the parent; the statements obtained by
applying any operation sequence to a fork are a function of that sequence
and the shared sink name alone — never of the parent's or a sibling
fork's statements — and each fork reifies independently via
`into_stmts`. -/
theorem fork_independence (r : Renderer) (ops1 ops2 : List Op) :
    (r.fork).stmts = []
    ∧ (r.fork).w = r.w
    ∧ (applyOps r.fork ops1).stmts = opsStmts r.w ops1
    ∧ (applyOps r.fork ops2).stmts = opsStmts r.w ops2
    ∧ (applyOps r.fork ops1).into_stmts = opsStmts r.w ops1
    ∧ (applyOps r ops1).stmts = r.stmts ++ opsStmts r.w ops1 := by
  have h1 : (applyOps r.fork ops1).stmts = opsStmts r.w ops1 := by
    have h := applyOps_stmts r.fork ops1
    simpa [Renderer.fork] using h
  have h2 : (applyOps r.fork ops2).stmts = opsStmts r.w ops2 := by
    have h := applyOps_stmts r.fork ops2
    simpa [Renderer.fork] using h
  exact ⟨rfl, rfl, h1, h2, h1, applyOps_stmts r ops1⟩

/-- C7: the structural helpers append only literal writes realizing the
fixed tag grammar — `<name`, ` name="`, ` name`, `"`, `>`, `</name>` —
and touch no other state. -/
theorem structural_helpers_grammar (r : Renderer) (n : String) :
    (r.element_open_start n).stmts = r.stmts ++
      [.tryCall (.write_str r.w "<"), .tryCall (.write_str r.w n)]
    ∧ (r.attribute_start n).stmts = r.stmts ++
      [.tryCall (.write_str r.w " "), .tryCall (.write_str r.w n),
        .tryCall (.write_str r.w "=\"")]
    ∧ (r.attribute_empty n).stmts = r.stmts ++
      [.tryCall (.write_str r.w " "), .tryCall (.write_str r.w n)]
    ∧ (r.attribute_end).stmts = r.stmts ++ [.tryCall (.write_str r.w "\"")]
    ∧ (r.element_open_end).stmts = r.stmts ++ [.tryCall (.write_str r.w ">")]
    ∧ (r.element_close n).stmts = r.stmts ++
      [.tryCall (.write_str r.w "</"), .tryCall (.write_str r.w n),
        .tryCall (.write_str r.w ">")]
    ∧ (r.element_open_start n).w = r.w
    ∧ (r.attribute_start n).w = r.w
    ∧ (r.element_close n).w = r.w := by
  refine ⟨?_, ?_, ?_, ?_, ?_, ?_, rfl, rfl, rfl⟩ <;>
    simp [Renderer.element_open_start, Renderer.attribute_start,
      Renderer.attribute_empty, Renderer.attribute_end,
      Renderer.element_open_end, Renderer.element_close,
      Renderer.write, Renderer.push_try]

/-- C10: `push_stmts` transfers the former contents of the argument
vector onto the end of the builder's statement list, in order, and leaves
the vector empty — the statements are moved, not copied, and nothing else
of the builder changes. -/
theorem push_stmts_transfers (r : Renderer) (v : List Stmt) :
    (r.push_stmts v).1.stmts = r.stmts ++ v
    ∧ (r.push_stmts v).2 = []
    ∧ (r.push_stmts v).1.w = r.w :=
  ⟨rfl, rfl, rfl⟩

/-- C3: for a program of simple writes against a fresh sink that fails on
the Nth write attempt (1 ≤ N ≤ number of writes), execution performs
exactly the N−1 writes before the failing one, makes no attempt after it,
and returns exactly the sink's own error; against a fresh sink that never
fails, every instruction runs and the result is success. -/
theorem fail_fast_short_circuit (cs cs2 : List String) (N : Nat)
    (er er2 : FmtError) (w : String) (h1 : 1 ≤ N) (h2 : N ≤ cs.length) :
    execStmts (writes w cs) ⟨[], 0, some N, er⟩ =
      (⟨cs.take (N - 1), N, some N, er⟩, some er)
    ∧ execStmts (writes w cs2) ⟨[], 0, none, er2⟩ =
      (⟨cs2, cs2.length, none, er2⟩, none) := by
  constructor
  · have h := execWrites_fail w cs [] 0 N er h1 (by omega)
    simpa using h
  · have h := execWrites_plain w cs2 [] 0 er2
    simpa using h

theorem fail_fast_short_circuit_witness :
    execStmts (writes "w" ["a", "b", "c"]) ⟨[], 0, some 2, ⟨7⟩⟩ =
      (⟨["a"], 2, some 2, ⟨7⟩⟩, some ⟨7⟩)
    ∧ execStmts (writes "w" ["x", "y"]) ⟨[], 0, none, ⟨5⟩⟩ =
      (⟨["x", "y"], 2, none, ⟨5⟩⟩, none) := by
  have h := fail_fast_short_circuit ["a", "b", "c"] ["x", "y"] 2 ⟨7⟩ ⟨5⟩ "w"
    (by decide) (by decide)
  simpa using h

/-- C5: `emit_if(c, b, None)` appends exactly one `if` statement carrying
no else part; executing it with a false condition does nothing to the
sink and succeeds; an empty then-body is legal, lowering to an empty
block, and the program lowered from `emit_if(c, [], None)` run with `c`
true writes zero chunks and returns success on any sink. -/
theorem emit_if_none_semantics (r : Renderer) (c : Cond) (b : List Stmt)
    (s s2 s3 : Sink) :
    (r.emit_if c b none).stmts = r.stmts ++ [.ifStmt c b none]
    ∧ execStmt (.ifStmt ⟨false⟩ b none) s = (s, none)
    ∧ (Renderer.new.emit_if ⟨true⟩ [] none).into_expr s2 = (s2, none)
    ∧ (Renderer.new.emit_if c [] none).into_expr s3 = (s3, none) := by
  refine ⟨rfl, ?_, ?_, ?_⟩
  · simp [execStmt]
  · simp [Renderer.into_expr, Renderer.new, Renderer.emit_if, execStmts, execStmt]
  · cases hc : c.val <;>
      simp [Renderer.into_expr, Renderer.new, Renderer.emit_if, execStmts,
        execStmt, hc]

/-- C8: `emit_for(p, i, b)` appends exactly one `for` statement wrapping
the fully-lowered body `b`, and executing that statement is the same as
executing `b`'s instructions once per element of the iterable, in
iteration order, against the same sink state threaded through. -/
theorem emit_for_semantics (r : Renderer) (p : Pat) (i : List Val)
    (b : List Stmt) (s : Sink) :
    (r.emit_for p i b).stmts = r.stmts ++ [.forStmt p i b]
    ∧ execStmt (.forStmt p i b) s = execStmts (repeatProgram i.length b) s := by
  constructor
  · rfl
  · simp only [execStmt]
    exact execIter_eq_repeat b i s

/-- C4: `splice(e, m)` appends exactly one statement for every expression
and mode; at execution the Escape-mode statement streams the expression
through the `Escaper` adapter wrapping the sink — each chunk is escaped
as it is written, with no materialized re-escaped string — while the
PassThru-mode statement writes directly to the sink; and both a rendering
failure of the expression and a write failure of the sink during its
emission abort the whole program with exactly that failure, executing
nothing after it. -/
theorem splice_semantics (r : Renderer) (e : OExpr) (rest : List Stmt)
    (s : Sink) (out0 : List String) (a0 : Nat) (er fe : FmtError)
    (c : String) (cs : List String) (f : Option FmtError) :
    (r.splice e .Escape).stmts = r.stmts ++ [.tryCall (.write_fmt_escaped r.w e)]
    ∧ (r.splice e .PassThru).stmts = r.stmts ++ [.tryCall (.write_fmt_direct r.w e)]
    ∧ execStmt (.tryCall (.write_fmt_escaped r.w e)) s = e.renderTo escaperWrite s
    ∧ execStmt (.tryCall (.write_fmt_direct r.w e)) s = e.renderTo Sink.writeStr s
    ∧ e.renderTo escaperWrite ⟨out0, a0, none, er⟩ =
        (⟨out0 ++ e.chunks.map escape, a0 + e.chunks.length, none, er⟩, e.fail)
    ∧ e.renderTo Sink.writeStr ⟨out0, a0, none, er⟩ =
        (⟨out0 ++ e.chunks, a0 + e.chunks.length, none, er⟩, e.fail)
    ∧ execStmts (.tryCall (.write_fmt_escaped r.w (⟨e.chunks, some fe⟩ : OExpr)) :: rest)
        ⟨out0, a0, none, er⟩ =
        (⟨out0 ++ e.chunks.map escape, a0 + e.chunks.length, none, er⟩, some fe)
    ∧ execStmts (.tryCall (.write_fmt_direct r.w (⟨e.chunks, some fe⟩ : OExpr)) :: rest)
        ⟨out0, a0, none, er⟩ =
        (⟨out0 ++ e.chunks, a0 + e.chunks.length, none, er⟩, some fe)
    ∧ execStmts (.tryCall (.write_fmt_escaped r.w (⟨c :: cs, f⟩ : OExpr)) :: rest)
        ⟨out0, a0, some (a0 + 1), er⟩ =
        (⟨out0, a0 + 1, some (a0 + 1), er⟩, some er)
    ∧ execStmts (.tryCall (.write_fmt_direct r.w (⟨c :: cs, f⟩ : OExpr)) :: rest)
        ⟨out0, a0, some (a0 + 1), er⟩ =
        (⟨out0, a0 + 1, some (a0 + 1), er⟩, some er) := by
  have hesc : e.renderTo escaperWrite ⟨out0, a0, none, er⟩ =
      (⟨out0 ++ e.chunks.map escape, a0 + e.chunks.length, none, er⟩, e.fail) := by
    rw [OExpr.renderTo,
      renderChunks_plain escaperWrite escape (fun s t => rfl) e.chunks out0 a0 er]
  have hdir : e.renderTo Sink.writeStr ⟨out0, a0, none, er⟩ =
      (⟨out0 ++ e.chunks, a0 + e.chunks.length, none, er⟩, e.fail) := by
    rw [OExpr.renderTo,
      renderChunks_plain Sink.writeStr (fun t => t) (fun s t => rfl) e.chunks out0 a0 er]
    simp
  have hescf : OExpr.renderTo ⟨e.chunks, some fe⟩ escaperWrite ⟨out0, a0, none, er⟩ =
      (⟨out0 ++ e.chunks.map escape, a0 + e.chunks.length, none, er⟩, some fe) := by
    rw [OExpr.renderTo,
      renderChunks_plain escaperWrite escape (fun s t => rfl) e.chunks out0 a0 er]
  have hdirf : OExpr.renderTo ⟨e.chunks, some fe⟩ Sink.writeStr ⟨out0, a0, none, er⟩ =
      (⟨out0 ++ e.chunks, a0 + e.chunks.length, none, er⟩, some fe) := by
    rw [OExpr.renderTo,
      renderChunks_plain Sink.writeStr (fun t => t) (fun s t => rfl) e.chunks out0 a0 er]
    simp
  refine ⟨rfl, rfl, by simp only [execStmt], by simp only [execStmt], hesc, hdir,
    ?_, ?_, ?_, ?_⟩
  · simp only [execStmts, execStmt, hescf]
  · simp only [execStmts, execStmt, hdirf]
  · simp [execStmts, execStmt, OExpr.renderTo, renderChunks, escaperWrite,
      Sink.writeStr]
  · simp [execStmts, execStmt, OExpr.renderTo, renderChunks, Sink.writeStr]

/-- C9: a builder created by `new` names its sink `"w"`; `fork` copies
the identifier unchanged; and applying any operation sequence (whose
embedded branch/loop/pushed bodies also refer only to `"w"`) to a builder
whose sink is `"w"` and whose statements refer only to `"w"` yields a
builder whose sink is still `"w"` and all of whose write calls refer to
that one sink name. -/
theorem sink_identifier_constant (r : Renderer) (ops : List Op)
    (hw : r.w = "w") (hs : stmtsSinkOk "w" r.stmts = true)
    (ho : opsSinkOk "w" ops = true) :
    Renderer.new.w = "w"
    ∧ (Renderer.fork r).w = r.w
    ∧ (applyOps r ops).w = "w"
    ∧ stmtsSinkOk "w" (applyOps r ops).stmts = true := by
  refine ⟨rfl, rfl, ?_, applyOps_sinkOk r ops "w" hw hs ho⟩
  rw [applyOps_w, hw]

theorem sink_identifier_constant_witness :
    Renderer.new.w = "w"
    ∧ (Renderer.fork Renderer.new).w = Renderer.new.w
    ∧ (applyOps Renderer.new [Op.string "x" .Escape,
        Op.emitIf ⟨true⟩ [Stmt.tryCall (.write_str "w" "y")] none]).w = "w"
    ∧ stmtsSinkOk "w" (applyOps Renderer.new [Op.string "x" .Escape,
        Op.emitIf ⟨true⟩ [Stmt.tryCall (.write_str "w" "y")] none]).stmts = true :=
  sink_identifier_constant Renderer.new
    [Op.string "x" .Escape,
      Op.emitIf ⟨true⟩ [Stmt.tryCall (.write_str "w" "y")] none]
    rfl rfl (by decide)

end Maud
